import Mathlib

/-!
Shallow embedding of the Mumble voice capture pipeline
(`src/mumble/AudioInput.cpp`) and proofs about it.

Mic/speaker sample buffers are modelled by opaque identifiers (`Nat`); the
contents of a frame never influence the control flow under study.
-/

set_option linter.unusedVariables false
set_option linter.unreachableTactic false
set_option linter.unusedTactic false

/-! ## Resynchronizer (AudioInput.cpp lines 42-144)

States `S0 … S5` and the mic FIFO (`micQueue`, a `std::deque< short * >`
whose elements we model by their identities). -/

/-- The state enumeration of `Resynchronizer` (AudioInput.h / AudioInput.cpp). -/
inductive RState where
  | S0 | S1a | S1b | S2 | S3 | S4a | S4b | S5
deriving DecidableEq, Repr

/-- The mutable data of `Resynchronizer`: current state and the mic FIFO
(front of the list = front of the queue = oldest frame). -/
structure RSync where
  state : RState
  micQueue : List Nat
deriving DecidableEq, Repr

/-- The `switch (state)` of `Resynchronizer::addMic` (lines 47-72): next
state, and whether the branch sets `drop = true`. In the drop branches the
source leaves `state` unchanged. -/
def micNext : RState → RState × Bool
  | .S0 => (.S1a, false)
  | .S1a => (.S2, false)
  | .S1b => (.S2, false)
  | .S2 => (.S3, false)
  | .S3 => (.S4a, false)
  | .S4a => (.S5, false)
  | .S4b => (.S4b, true)
  | .S5 => (.S5, true)

/-- The `switch (state)` of `Resynchronizer::addSpeaker` (lines 90-115):
next state, and whether the branch sets `drop = true`. -/
def spkNext : RState → RState × Bool
  | .S0 => (.S0, true)
  | .S1a => (.S1a, true)
  | .S1b => (.S0, false)
  | .S2 => (.S1b, false)
  | .S3 => (.S2, false)
  | .S4a => (.S3, false)
  | .S4b => (.S3, false)
  | .S5 => (.S4b, false)

/-- `Resynchronizer::addMic` (lines 42-83): push the mic frame at the back,
step the state machine, and on overflow delete the queue's front (the oldest
frame). Returns the new state and whether a frame was dropped. -/
def RSync.addMic (r : RSync) (mic : Nat) : RSync × Bool :=
  let q := r.micQueue ++ [mic]
  let sd := micNext r.state
  (⟨sd.1, if sd.2 then q.tail else q⟩, sd.2)

/-- `Resynchronizer::addSpeaker` (lines 85-129): step the state machine; when
`drop == false` pop the queue's front and emit the pair
`(micQueue.front(), speaker)`, otherwise delete the speaker frame and emit
nothing. (`micQueue.front()` on an empty queue is undefined behaviour in the
source; the embedding totalises it with `headD 0` and the queue-depth
invariant shows the default is never consulted on reachable states.) -/
def RSync.addSpeaker (r : RSync) (speaker : Nat) : RSync × Option (Nat × Nat) :=
  let sd := spkNext r.state
  if sd.2 then (⟨sd.1, r.micQueue⟩, none)
  else (⟨sd.1, r.micQueue.tail⟩, some (r.micQueue.headD 0, speaker))

/-- `Resynchronizer::reset` (lines 131-140): back to `S0`, FIFO drained. -/
def RSync.reset (r : RSync) : RSync := ⟨.S0, []⟩

/-- The initial resynchronizer: state `S0`, empty FIFO. -/
def RSync.init : RSync := ⟨.S0, []⟩

/-- The states reachable by any interleaving of `addMic`, `addSpeaker` and
`reset` from the initial state. -/
inductive RSync.Reachable : RSync → Prop where
  | init : RSync.Reachable RSync.init
  | mic (r : RSync) (m : Nat) : RSync.Reachable r → RSync.Reachable (r.addMic m).1
  | spk (r : RSync) (s : Nat) : RSync.Reachable r → RSync.Reachable (r.addSpeaker s).1
  | reset (r : RSync) : RSync.Reachable r → RSync.Reachable r.reset

/-- The FIFO depth each state encodes. -/
def stateDepth : RState → Nat
  | .S0 => 0
  | .S1a => 1
  | .S1b => 1
  | .S2 => 2
  | .S3 => 3
  | .S4a => 4
  | .S4b => 4
  | .S5 => 5

/-- On every reachable resynchronizer the FIFO depth is determined by the
state. -/
theorem RSync.reachable_depth (r : RSync) (h : r.Reachable) :
    r.micQueue.length = stateDepth r.state := by
  induction h with
  | init => rfl
  | mic r m _ ih =>
      rcases r with ⟨s, q⟩
      cases s <;>
        simp_all [RSync.addMic, micNext, stateDepth]
  | spk r s _ ih =>
      rcases r with ⟨st, q⟩
      cases st <;>
        simp_all [RSync.addSpeaker, spkNext, stateDepth]
  | reset r _ => rfl

/-! Event traces over the resynchronizer, for the boundedness and pair
accounting properties. -/

/-- One arrival: a mic frame or a speaker frame (identified by a tag). -/
inductive REvent where
  | mic (id : Nat)
  | spk (id : Nat)
deriving DecidableEq, Repr

/-- Whether an event is a mic arrival. -/
def REvent.isMic : REvent → Bool
  | .mic _ => true
  | .spk _ => false

/-- Whether an event is a speaker arrival. -/
def REvent.isSpk : REvent → Bool
  | .mic _ => false
  | .spk _ => true

/-- Running tally while the resynchronizer consumes a trace: current state,
emitted pairs in order, mic frames dropped (overflow), speaker frames
dropped (underflow). -/
structure RunAcc where
  r : RSync
  pairs : List (Nat × Nat)
  micDrops : Nat
  spkDrops : Nat
deriving DecidableEq, Repr

/-- Feed one event to the resynchronizer and record its effect. -/
def runStep (a : RunAcc) (e : REvent) : RunAcc :=
  match e with
  | .mic id =>
      let rd := a.r.addMic id
      ⟨rd.1, a.pairs, a.micDrops + (if rd.2 then 1 else 0), a.spkDrops⟩
  | .spk id =>
      let rp := a.r.addSpeaker id
      match rp.2 with
      | some pr => ⟨rp.1, a.pairs ++ [pr], a.micDrops, a.spkDrops⟩
      | none => ⟨rp.1, a.pairs, a.micDrops, a.spkDrops + 1⟩

/-- Consume a whole trace starting from the initial resynchronizer. -/
def runR (evs : List REvent) : RunAcc :=
  evs.foldl runStep ⟨RSync.init, [], 0, 0⟩

theorem runStep_inv (a : RunAcc) (e : REvent)
    (h : a.r.micQueue.length = stateDepth a.r.state) :
    let b := runStep a e
    b.r.micQueue.length = stateDepth b.r.state
    ∧ b.pairs.length + b.spkDrops
        = a.pairs.length + a.spkDrops + (if e.isSpk then 1 else 0)
    ∧ b.pairs.length + b.micDrops + b.r.micQueue.length
        = a.pairs.length + a.micDrops + a.r.micQueue.length
            + (if e.isMic then 1 else 0) := by
  rcases a with ⟨⟨s, q⟩, ps, md, sd⟩
  rcases e with id | id <;> cases s <;>
    simp_all [runStep, RSync.addMic, RSync.addSpeaker, micNext, spkNext,
      REvent.isMic, REvent.isSpk, stateDepth] <;> omega

theorem runR_fold (evs : List REvent) :
    ∀ a : RunAcc, a.r.micQueue.length = stateDepth a.r.state →
    let b := evs.foldl runStep a
    b.r.micQueue.length = stateDepth b.r.state
    ∧ b.pairs.length + b.spkDrops
        = a.pairs.length + a.spkDrops + evs.countP REvent.isSpk
    ∧ b.pairs.length + b.micDrops + b.r.micQueue.length
        = a.pairs.length + a.micDrops + a.r.micQueue.length
            + evs.countP REvent.isMic := by
  induction evs with
  | nil =>
      intro a h
      refine ⟨h, ?_, ?_⟩ <;> simp
  | cons e t ih =>
      intro a h
      have hs := runStep_inv a e h
      have ht := ih (runStep a e) hs.1
      simp only [List.foldl_cons, List.countP_cons] at *
      refine ⟨ht.1, ?_, ?_⟩ <;>
        rcases e with id | id <;>
          simp_all [REvent.isMic, REvent.isSpk] <;> omega

/-- C1, counterexample: the claim says the mic FIFO never holds more than 2
frames and that emitted pairs number `min(M, S)` minus the drops.  Five mic
arrivals from the initial state leave 5 frames in the FIFO with no drop at
all; and for the trace mic,mic,spk,spk,spk (M = 2, S = 3) the code emits
2 pairs while `min(M, S)` minus the 1 drop is 1. -/
theorem resynchronizer_fifo_exceeds_two :
    ((runR [.mic 1, .mic 2, .mic 3, .mic 4, .mic 5]).r.micQueue.length = 5
      ∧ (runR [.mic 1, .mic 2, .mic 3, .mic 4, .mic 5]).micDrops = 0
      ∧ ¬ (runR [.mic 1, .mic 2, .mic 3, .mic 4, .mic 5]).r.micQueue.length ≤ 2)
    ∧ ((runR [.mic 1, .mic 2, .spk 3, .spk 4, .spk 5]).pairs.length = 2
      ∧ (runR [.mic 1, .mic 2, .spk 3, .spk 4, .spk 5]).micDrops
          + (runR [.mic 1, .mic 2, .spk 3, .spk 4, .spk 5]).spkDrops = 1
      ∧ min 2 3 - 1 ≠ 2) := by
  decide

/-- C1, amended: for any interleaving of `M` mic arrivals and `S` speaker
arrivals the FIFO depth always equals the depth encoded by the state, so it
never exceeds 5 (not 2); and the emitted pairs number `S` minus the speaker
drops, equivalently `M` minus the mic drops minus the frames still queued. -/
theorem resynchronizer_bounded_pairs (evs : List REvent) :
    (runR evs).r.micQueue.length = stateDepth (runR evs).r.state
    ∧ (runR evs).r.micQueue.length ≤ 5
    ∧ (runR evs).pairs.length + (runR evs).spkDrops = evs.countP REvent.isSpk
    ∧ (runR evs).pairs.length + (runR evs).micDrops + (runR evs).r.micQueue.length
        = evs.countP REvent.isMic := by
  have h := runR_fold evs ⟨RSync.init, [], 0, 0⟩ rfl
  simp only [runR] at *
  refine ⟨h.1, ?_, ?_, ?_⟩
  · rw [h.1]; cases (List.foldl runStep ⟨RSync.init, [], 0, 0⟩ evs).r.state <;>
      simp [stateDepth]
  · simpa [RSync.init] using h.2.1
  · simpa [RSync.init] using h.2.2

/-- C4, counterexample: after mic,mic,spk the resynchronizer is in `S1b`
with one queued mic frame; the claim says a speaker arrival in `S1b` drops
the speaker without emitting a pair, but the code emits the pair `(2, 11)`
(popping the queued mic frame) and moves to `S0`. -/
theorem resync_s1b_emits_pair :
    (runR [.mic 1, .mic 2, .spk 10]).r.state = RState.S1b
    ∧ ((runR [.mic 1, .mic 2, .spk 10]).r.addSpeaker 11).2 = some (2, 11)
    ∧ ((runR [.mic 1, .mic 2, .spk 10]).r.addSpeaker 11).1.state = RState.S0 := by
  decide

/-- C4, amended: on every reachable resynchronizer, `addMic` drops a mic
frame exactly in states `S4b` and `S5` (removing the oldest queued frame and
leaving the state unchanged), `addSpeaker` drops the speaker exactly in
states `S0` and `S1a`, every non-dropping `addSpeaker` pops the front of the
mic FIFO and emits it paired with the speaker — and in state `S1b` in
particular it emits the single queued mic frame and moves to `S0` (it does
not drop the speaker). -/
theorem resync_transition_table (r : RSync) (h : r.Reachable) :
    (∀ m, ((r.addMic m).2 = true ↔ (r.state = RState.S4b ∨ r.state = RState.S5)))
    ∧ (∀ m, (r.addMic m).2 = true →
        (r.addMic m).1.micQueue = (r.micQueue ++ [m]).tail
          ∧ (r.addMic m).1.state = r.state)
    ∧ (∀ s, ((r.addSpeaker s).2 = none ↔ (r.state = RState.S0 ∨ r.state = RState.S1a)))
    ∧ (∀ s, (r.addSpeaker s).2 ≠ none →
        ∃ m q, r.micQueue = m :: q ∧ (r.addSpeaker s).2 = some (m, s)
          ∧ (r.addSpeaker s).1.micQueue = q)
    ∧ (r.state = RState.S1b → ∀ s,
        (r.addSpeaker s).1.state = RState.S0
          ∧ ∃ m, r.micQueue = [m] ∧ (r.addSpeaker s).2 = some (m, s)) := by
  have hd := r.reachable_depth h
  rcases r with ⟨s, q⟩
  simp only at hd
  cases s <;>
    simp_all [RSync.addMic, RSync.addSpeaker, micNext, spkNext, stateDepth] <;>
    (rcases q with _ | ⟨m, q⟩ <;> simp_all)

/-- C4, witness: the amended transition theorem applied to the concrete
reachable state `S1b` reached by mic,mic,spk. -/
theorem resync_transition_table_witness :
    (((((RSync.init.addMic 1).1.addMic 2).1.addSpeaker 10).1.addSpeaker 11).1.state
        = RState.S0)
    ∧ ((((RSync.init.addMic 1).1.addMic 2).1.addSpeaker 10).1.addSpeaker 11).2
        = some (2, 11) := by
  have h := resync_transition_table (((RSync.init.addMic 1).1.addMic 2).1.addSpeaker 10).1
    (RSync.Reachable.spk _ 10 (RSync.Reachable.mic _ 2 (RSync.Reachable.mic _ 1
      RSync.Reachable.init)))
  have h5 := h.2.2.2.2 (by decide) 11
  refine ⟨h5.1, ?_⟩
  rcases h5.2 with ⟨m, hm, he⟩
  have : m = 2 := by
    have := congrArg (fun l => l.headD 0) hm
    simpa using this.symm
  simpa [this] using he

/-- C9: on every state reachable by `addMic`, `addSpeaker` and `reset` from
the initial state, the mic-FIFO depth is the function of the state given by
`stateDepth` (S0 to 0, S1a/S1b to 1, S2 to 2, S3 to 3, S4a/S4b to 4, S5 to
5); consequently `micQueue.front()` is only evaluated on a non-empty FIFO:
in `addSpeaker` the non-drop branch only runs in states of positive depth,
and in `addMic` the drop branch reads the front of the queue after the push,
when it is certainly non-empty. -/
theorem resync_queue_depth (r : RSync) (h : r.Reachable) :
    r.micQueue.length = stateDepth r.state
    ∧ ((spkNext r.state).2 = false → r.micQueue ≠ [])
    ∧ (∀ m, (micNext r.state).2 = true → r.micQueue ++ [m] ≠ []) := by
  have hd := r.reachable_depth h
  refine ⟨hd, ?_, ?_⟩
  · intro hdrop hnil
    rw [hnil] at hd
    cases hs : r.state <;> rw [hs] at hd hdrop <;> simp [spkNext, stateDepth] at hd hdrop
  · intro m _
    simp

/-- C9, witness: the depth theorem applied to the concrete reachable state
after mic,mic,spk (state `S1b`, depth 1, non-empty queue for the non-drop
`addSpeaker` branch). -/
theorem resync_queue_depth_witness :
    ((((RSync.init.addMic 1).1.addMic 2).1.addSpeaker 10).1.micQueue.length
        = stateDepth ((((RSync.init.addMic 1).1.addMic 2).1.addSpeaker 10).1.state))
    ∧ (((RSync.init.addMic 1).1.addMic 2).1.addSpeaker 10).1.micQueue ≠ [] := by
  have h := resync_queue_depth ((((RSync.init.addMic 1).1.addMic 2).1.addSpeaker 10).1)
    (RSync.Reachable.spk _ 10 (RSync.Reachable.mic _ 2 (RSync.Reachable.mic _ 1
      RSync.Reachable.init)))
  exact ⟨h.1, h.2.1 (by decide)⟩

/-! ## Transmission arbiter: voice hold (AudioInput.cpp lines 1059-1066) -/

/-- The hold block of `AudioInput::encodeAudioFrame` (lines 1059-1066): on a
not-speech frame `iHoldFrames` is incremented and speech is forced while the
incremented counter is still below `iVoiceHold`; on a speech frame
`iHoldFrames` is reset to 0. Returns the (possibly forced) speech flag and
the new `iHoldFrames`. -/
def holdStep (iVoiceHold : Int) (bIsSpeech : Bool) (iHoldFrames : Int) : Bool × Int :=
  if !bIsSpeech then
    (decide (iHoldFrames + 1 < iVoiceHold), iHoldFrames + 1)
  else (bIsSpeech, 0)

/-- The speech decisions produced by `n` consecutive not-speech frames
starting from hold counter `h`. -/
def silentDecisions (iVoiceHold : Int) : Nat → Int → List Bool
  | 0, _ => []
  | n + 1, h =>
      (holdStep iVoiceHold false h).1
        :: silentDecisions iVoiceHold n (holdStep iVoiceHold false h).2

theorem silentDecisions_eq (V : Int) :
    ∀ (n : Nat) (h : Int),
      silentDecisions V n h
        = (List.range n).map (fun (k : Nat) => decide (h + (k : Int) + 1 < V)) := by
  intro n
  induction n with
  | zero => intro h; simp [silentDecisions]
  | succ n ih =>
      intro h
      have hstep : holdStep V false h = (decide (h + 1 < V), h + 1) := rfl
      have hunf : silentDecisions V (n + 1) h
          = (holdStep V false h).1 :: silentDecisions V n (holdStep V false h).2 := rfl
      rw [hunf, hstep, List.range_succ_eq_map]
      simp only [List.map_cons, List.map_map]
      rw [ih (h + 1)]
      congr 1
      · exact decide_eq_decide.mpr (by push_cast; omega)
      · refine List.map_congr_left fun k _ => ?_
        simp only [Function.comp_apply]
        exact decide_eq_decide.mpr (by push_cast; omega)

/-- C3, counterexample: with `voice_hold = 2`, after a speech burst (hold
counter 0) the first not-speech frame is still transmitted but the second is
not — the code transmits only `voice_hold - 1 = 1` extra frame, not the
claimed `voice_hold = 2` — and on that second frame `iHoldFrames` is left at
2 rather than being reset to 0. -/
theorem voice_hold_counterexample :
    holdStep 2 false 0 = (true, 1)
    ∧ holdStep 2 false 1 = (false, 2)
    ∧ silentDecisions 2 2 0 = [true, false]
    ∧ [true, false] ≠ [true, true] := by
  refine ⟨rfl, ?_, ?_, by decide⟩ <;> decide

/-- C3, amended: on a not-speech frame the code increments `iHoldFrames`
first and forces speech exactly while the incremented counter is below
`voice_hold` (so `iHoldFrames` is never reset on the not-speech path); on a
speech frame `iHoldFrames` is reset to 0.  Consequently, after a speech
burst ends the `k`-th consecutive not-speech frame (`k` counted from 0) is
transmitted iff `k + 1 < voice_hold`: exactly `max (voice_hold - 1) 0`
frames are still transmitted, one fewer than the claim's `voice_hold`. -/
theorem voice_hold_amended :
    (∀ (V : Int) (n : Nat),
        silentDecisions V n 0
          = (List.range n).map (fun (k : Nat) => decide ((k : Int) + 1 < V)))
    ∧ (∀ V h : Int, holdStep V true h = (true, 0))
    ∧ (∀ V h : Int, holdStep V false h = (decide (h + 1 < V), h + 1)) := by
  refine ⟨fun V n => ?_, fun V h => rfl, fun V h => rfl⟩
  rw [silentDecisions_eq V n 0]
  refine List.map_congr_left fun k _ => ?_
  norm_num

/-! ## Bandwidth governor (AudioInput.cpp lines 679-748) -/

/-- `AudioInput::getNetworkBandwidth` (lines 741-748): the source computes
`overhead = 20 + 8 + 4 + 1 + 2 + (position ? 12 : 0) + (tcp ? 12 : 0) + frames`,
multiplies it by the integer quotient `800 / frames` and adds the bitrate. -/
def getNetworkBandwidth (pos tcp : Bool) (bitrate frames : Int) : Int :=
  (20 + 8 + 4 + 1 + 2 + (if pos then 12 else 0) + (if tcp then 12 else 0) + frames)
    * (800 / frames) + bitrate

/-- The frame coarsening table of `AudioInput::adjustBandwidth`
(lines 688-693). -/
def coarsenFrames (bitspersec frames : Int) : Int :=
  if frames ≤ 4 ∧ bitspersec ≤ 32000 then 4
  else if frames = 1 ∧ bitspersec ≤ 64000 then 2
  else if frames = 2 ∧ bitspersec ≤ 48000 then 4
  else frames

/-- The `do { bitrate -= 1000; } while (bitrate > 8000 && over cap)` loop of
`AudioInput::adjustBandwidth` (lines 695-697), written with explicit fuel so
that it evaluates by kernel reduction; `decLoop` below supplies fuel
sufficient for every input (the loop lowers `bitrate` by 1000 each pass and
stops at 8000). -/
def decLoopF (pos tcp : Bool) (cap frames : Int) : Nat → Int → Int
  | 0, bitrate => bitrate - 1000
  | fuel + 1, bitrate =>
      if 8000 < bitrate - 1000
          ∧ cap < getNetworkBandwidth pos tcp (bitrate - 1000) frames then
        decLoopF pos tcp cap frames fuel (bitrate - 1000)
      else bitrate - 1000

/-- The decrement loop with always-sufficient fuel. -/
def decLoop (pos tcp : Bool) (cap frames bitrate : Int) : Int :=
  decLoopF pos tcp cap frames ((bitrate - 8000).toNat + 1) bitrate

/-- `AudioInput::adjustBandwidth` (lines 679-703): on a real cap
(`bitspersec != -1`), if the current parameters exceed the cap first coarsen
the frame count per the table, then step the bitrate down by 1000; finally
floor the bitrate at 8000.  Returns `(bitrate, frames)`. -/
def adjustBandwidth (pos tcp : Bool) (bitspersec iQuality iFramesPerPacket : Int) :
    Int × Int :=
  let bf :=
    if bitspersec = -1 then (iQuality, iFramesPerPacket)
    else if bitspersec < getNetworkBandwidth pos tcp iQuality iFramesPerPacket then
      let f := coarsenFrames bitspersec iFramesPerPacket
      if bitspersec < getNetworkBandwidth pos tcp iQuality f then
        (decLoop pos tcp bitspersec f iQuality, f)
      else (iQuality, f)
    else (iQuality, iFramesPerPacket)
  (if bf.1 ≤ 8000 then 8000 else bf.1, bf.2)

theorem decLoopF_post (pos tcp : Bool) (cap f : Int) :
    ∀ (fuel : Nat) (b : Int), b - 8000 ≤ 1000 * (fuel : Int) →
      decLoopF pos tcp cap f fuel b ≤ 8000
        ∨ getNetworkBandwidth pos tcp (decLoopF pos tcp cap f fuel b) f ≤ cap := by
  intro fuel
  induction fuel with
  | zero =>
      intro b hb
      left
      simp only [decLoopF, Nat.cast_zero, mul_zero] at *
      omega
  | succ n ih =>
      intro b hb
      rw [decLoopF]
      split_ifs with h
      · exact ih (b - 1000) (by push_cast at *; omega)
      · rcases not_and_or.mp h with h1 | h1
        · left; omega
        · right; omega

theorem decLoop_post (pos tcp : Bool) (cap f b : Int) :
    decLoop pos tcp cap f b ≤ 8000
      ∨ getNetworkBandwidth pos tcp (decLoop pos tcp cap f b) f ≤ cap := by
  refine decLoopF_post pos tcp cap f _ b ?_
  push_cast
  omega

/-- C5, counterexample: with positional data and TCP mode on, the cap 32100
satisfies the claim's hypothesis (`getNetworkBandwidth 8000 4 = 20600 ≤
32100`), yet from settings `quality = 10000, frames = 1` the governor
returns `(8000, 2)` whose bandwidth 32400 exceeds the cap: the claimed
guarantee `bandwidth(b, f) ≤ cap` fails. -/
theorem adjust_bandwidth_exceeds_cap :
    adjustBandwidth true true 32100 10000 1 = (8000, 2)
    ∧ getNetworkBandwidth true true 8000 4 = 20600
    ∧ getNetworkBandwidth true true 8000 2 = 32400
    ∧ ¬ getNetworkBandwidth true true 8000 2 ≤ 32100 := by
  refine ⟨?_, by decide, by decide, by decide⟩
  decide

/-- C5, amended: for fixed frames `getNetworkBandwidth` is strictly
increasing in the bitrate; and for every cap other than the no-limit
sentinel `-1`, `adjustBandwidth` terminates with `(b, f)` such that
`b ≥ 8000` and `getNetworkBandwidth b f ≤ max cap (getNetworkBandwidth 8000 f)`
— the result fits the cap unless even the 8000 floor at the final frame
count exceeds it (which the claimed hypothesis `cap ≥ bandwidth(8000, 4)`
does not rule out), the frames having been coarsened per the table before
the bitrate was stepped down in units of 1000. -/
theorem adjust_bandwidth_amended (pos tcp : Bool) (cap q f0 : Int)
    (hcap : cap ≠ -1) :
    8000 ≤ (adjustBandwidth pos tcp cap q f0).1
    ∧ getNetworkBandwidth pos tcp (adjustBandwidth pos tcp cap q f0).1
          (adjustBandwidth pos tcp cap q f0).2
        ≤ max cap
            (getNetworkBandwidth pos tcp 8000 (adjustBandwidth pos tcp cap q f0).2)
    ∧ (∀ b1 b2 fr : Int, b1 < b2 →
        getNetworkBandwidth pos tcp b1 fr < getNetworkBandwidth pos tcp b2 fr) := by
  have hmono : ∀ b1 b2 fr : Int, b1 < b2 →
      getNetworkBandwidth pos tcp b1 fr < getNetworkBandwidth pos tcp b2 fr := by
    intro b1 b2 fr h
    exact add_lt_add_left h _
  have hshift : ∀ b1 b2 fr : Int, b1 ≤ b2 →
      getNetworkBandwidth pos tcp b1 fr ≤ getNetworkBandwidth pos tcp b2 fr := by
    intro b1 b2 fr h
    exact add_le_add_left h _
  refine ⟨?_, ?_, hmono⟩ <;>
  · simp only [adjustBandwidth, if_neg hcap]
    split_ifs with h1 h2 h3 <;>
      first
        | omega
        | (try simp only [le_max_iff])
          first
            | (left; omega)
            | (right; exact hshift _ _ _ (by omega))
            | (rcases decLoop_post pos tcp cap (coarsenFrames cap f0) q with hp | hp <;>
                first
                  | omega
                  | (left; omega)
                  | (right; exact hshift _ _ _ (by omega))
                  | (left; exact hp)
                  | exact absurd hp (by omega))

/-- C5, witness: the amended theorem at the concrete input cap 20000,
quality 12000, 1 frame per packet (no positional data, UDP): the governor
coarsens to 4 frames and keeps the bitrate, and the resulting bandwidth
19800 fits the cap. -/
theorem adjust_bandwidth_amended_witness :
    8000 ≤ (adjustBandwidth false false 20000 12000 1).1
    ∧ getNetworkBandwidth false false (adjustBandwidth false false 20000 12000 1).1
          (adjustBandwidth false false 20000 12000 1).2
        ≤ max 20000
            (getNetworkBandwidth false false 8000 (adjustBandwidth false false 20000 12000 1).2) := by
  have h := adjust_bandwidth_amended false false 20000 12000 1 (by decide)
  exact ⟨h.1, h.2.1⟩

/-! ## Legacy (CELT) payload framing (AudioInput.cpp lines 1286-1310) -/

/-- The legacy-codec payload loop of `AudioInput::flushCheck` (lines
1292-1307), exactly as the source writes it: on a terminator an empty
sub-frame is appended and the count incremented, then for each `i` the loop
reads `qlFrames[0]` — the index `i` is used only for the continuation bit —
and emits a length byte (`unsigned char`, hence the cast `% 256`) with
`0x80` or-ed in when another sub-frame follows, followed by that sub-frame's
bytes. -/
def legacyPayload (qlFrames : List (List Nat)) (iBufferedFrames : Nat)
    (terminator : Bool) : List Nat :=
  let ql := if terminator then qlFrames ++ [[]] else qlFrames
  let frames := if terminator then iBufferedFrames + 1 else iBufferedFrames
  ((List.range frames).map (fun i =>
    let qba := ql.getD 0 []
    let head := (qba.length % 256) ||| (if i < frames - 1 then 128 else 0)
    head :: qba)).flatten

/-- The intended per-sub-frame serialisation, as the spec describes it: each
sub-frame in order, length-prefixed, the high bit of the length byte set
exactly when another sub-frame follows. -/
def specEncodeSubs : List (List Nat) → List Nat
  | [] => []
  | [s] => (s.length % 256) :: s
  | s :: rest => (((s.length % 256) ||| 128) :: s) ++ specEncodeSubs rest

/-- The spec's payload builder: the accumulated sub-frames in order, plus an
empty end-marker sub-frame on a terminator flush. -/
def specLegacyPayload (qlFrames : List (List Nat)) (terminator : Bool) : List Nat :=
  specEncodeSubs (if terminator then qlFrames ++ [[]] else qlFrames)

/-- The spec's decoder for a legacy payload: read a length byte, take its
low 7 bits as the sub-frame size, continue while the `0x80` continuation
flag is set.  Written with fuel (the payload length suffices: every step
consumes at least the head byte). -/
def decodeLegacyF : Nat → List Nat → List (List Nat)
  | 0, _ => []
  | _ + 1, [] => []
  | fuel + 1, head :: rest =>
      if 128 ≤ head then rest.take (head % 128) :: decodeLegacyF fuel (rest.drop (head % 128))
      else [rest.take (head % 128)]

/-- Decode a whole legacy payload. -/
def decodeLegacy (payload : List Nat) : List (List Nat) :=
  decodeLegacyF payload.length payload

/-- C2: the loop in `flushCheck` reads `qlFrames[0]` for every sub-frame
slot instead of `qlFrames[i]`, so the emitted payload repeats the first
sub-frame.  With the two accumulated sub-frames `[0x01]` and `[0x02]`
(sizes < 128) the emitted payload is `0x81 0x01 0x01 0x01`, which decodes to
two copies of the first sub-frame instead of the original bytes; the spec's
serialisation round-trips.  On a terminator flush of the single sub-frame
`[0x01]` the appended empty end-marker is likewise replaced by a copy of the
first sub-frame. -/
theorem legacy_payload_repeats_first_subframe :
    legacyPayload [[1], [2]] 2 false = [129, 1, 1, 1]
    ∧ decodeLegacy (legacyPayload [[1], [2]] 2 false) = [[1], [1]]
    ∧ [[1], [1]] ≠ [[1], [2]]
    ∧ decodeLegacy (specLegacyPayload [[1], [2]] false) = [[1], [2]]
    ∧ decodeLegacy (legacyPayload [[1]] 1 true) = [[1], [1]]
    ∧ decodeLegacy (specLegacyPayload [[1]] true) = [[1], []] := by
  refine ⟨rfl, rfl, by decide, rfl, rfl, rfl⟩

/-! ## Codec paths of encodeAudioFrame (AudioInput.cpp lines 1179-1226)

The encoder itself is an external collaborator; it enters the model as a
function from the samples handed to `opus_encode` to the returned length.
A packet is represented by the samples the single encoded frame covers and
the terminator flag `flushCheck` receives. -/

/-- The per-frame codec state: reported bitrate, buffered-frame counter, and
the Opus sample accumulator `opusBuffer`. -/
structure EncSt where
  iBitrate : Int
  iBufferedFrames : Int
  opusBuffer : List Int
deriving DecidableEq, Repr

/-- The CELT branch of `encodeAudioFrame` (lines 1179-1186) together with
`encodeCELTFrame`'s bitrate update (line 947): the encoder's returned
length `len` sets `iBitrate = len * 100 * 8`; on `len <= 0` the function
zeroes `iBitrate` and returns without packetizing (note: `iBufferedFrames`
is not touched), otherwise the frame counts as buffered and goes on to
`flushCheck`.  The returned flag says whether the frame was packetized. -/
def celtStep (st : EncSt) (len : Int) : EncSt × Bool :=
  if len ≤ 0 then ({ st with iBitrate := 0 }, false)
  else (⟨len * 100 * 8, st.iBufferedFrames + 1, st.opusBuffer⟩, true)

/-- The Opus branch of `encodeAudioFrame` (lines 1187-1216) with the flush
effects of `flushCheck` (lines 1235-1239, 1264-1265): append the frame's
samples, count it; when speech ended or enough frames are buffered, pad
with zero samples up to `iAudioFrames` frames, encode the whole buffer and
clear it; on a non-positive encoder result zero the bitrate and reset
`iBufferedFrames`; otherwise emit exactly one packet (the encoded buffer
with the terminator flag) — `flushCheck` always flushes here since either
the terminator is set or `iBufferedFrames = iAudioFrames` — and reset
`iBufferedFrames`; finally line 1222 zeroes the reported bitrate on a
terminator frame. -/
def opusStep (iAudioFrames : Int) (iFrameSize : Nat) (enc : List Int → Int)
    (st : EncSt) (frame : List Int) (bIsSpeech : Bool) :
    EncSt × List (List Int × Bool) :=
  let buf := st.opusBuffer ++ frame
  let bf := st.iBufferedFrames + 1
  if ¬ bIsSpeech ∨ iAudioFrames ≤ bf then
    let buf2 :=
      if bf < iAudioFrames then
        buf ++ List.replicate ((iAudioFrames - bf).toNat * iFrameSize) 0
      else buf
    let bf2 := if bf < iAudioFrames then iAudioFrames else bf
    let len := enc buf2
    if len ≤ 0 then
      (⟨0, 0, []⟩, [])
    else
      (⟨if bIsSpeech then (len * 100 * 8) / bf2 else 0, 0, []⟩, [(buf2, !bIsSpeech)])
  else
    ({ st with iBufferedFrames := bf, opusBuffer := buf }, [])

/-- C6, counterexample: the claim says a non-positive encoder result resets
`iBufferedFrames` on both codec paths; on the CELT path, with two frames
already buffered and the encoder returning -1, the code zeroes the bitrate
and drops the frame but leaves `iBufferedFrames` at 2. -/
theorem celt_error_keeps_buffered_frames :
    celtStep ⟨1600, 2, []⟩ (-1) = (⟨0, 2, []⟩, false)
    ∧ ((celtStep ⟨1600, 2, []⟩ (-1)).1.iBufferedFrames = 2 ∧ (2 : Int) ≠ 0) := by
  refine ⟨rfl, rfl, by decide⟩

/-- C6, amended: on a non-positive encoder length the frame is dropped
without being packetized and the reported bitrate is zeroed on both paths,
and processing continues; but only the Opus path resets `iBufferedFrames`
to zero — the CELT path leaves the counter unchanged (the failed frame was
never counted). -/
theorem codec_error_handling (st : EncSt) (len iAudioFrames : Int)
    (iFrameSize : Nat) (enc : List Int → Int) (frame : List Int) (sp : Bool)
    (hlen : len ≤ 0) (henc : ∀ xs, enc xs ≤ 0)
    (hflush : ¬ sp ∨ iAudioFrames ≤ st.iBufferedFrames + 1) :
    celtStep st len = ({ st with iBitrate := 0 }, false)
    ∧ (celtStep st len).1.iBufferedFrames = st.iBufferedFrames
    ∧ opusStep iAudioFrames iFrameSize enc st frame sp
        = (⟨0, 0, []⟩, []) := by
  refine ⟨?_, ?_, ?_⟩
  · simp [celtStep, hlen]
  · simp [celtStep, hlen]
  · simp only [opusStep, if_pos hflush]
    have h1 := henc (st.opusBuffer ++ frame
      ++ List.replicate ((iAudioFrames - (st.iBufferedFrames + 1)).toNat * iFrameSize) 0)
    have h2 := henc (st.opusBuffer ++ frame)
    split_ifs <;> simp_all

/-- C6, witness: the error-handling theorem at a concrete state (two
buffered CELT frames, failing encoders, a terminator frame). -/
theorem codec_error_handling_witness :
    celtStep ⟨1600, 2, []⟩ (-1) = (⟨0, 2, []⟩, false)
    ∧ opusStep 2 1 (fun xs => -3) ⟨1600, 1, [7]⟩ [8] false = (⟨0, 0, []⟩, []) := by
  have h := codec_error_handling ⟨1600, 1, [7]⟩ (-1) 2 1 (fun xs => -3) [8] false
    (by norm_num) (by intro xs; norm_num) (Or.inl (by simp))
  have h2 := codec_error_handling ⟨1600, 2, []⟩ (-1) 2 1 (fun xs => -3) [8] false
    (by norm_num) (by intro xs; norm_num) (Or.inl (by simp))
  exact ⟨h2.1, h.2.2⟩

/-- C7: in Opus mode, when speech ends after `b + 1 ≤ iAudioFrames` frames
(the `b` buffered during the burst plus the terminator frame being
processed), the accumulated samples are zero-padded to exactly
`iAudioFrames` frames before encoding and exactly one packet is emitted,
flagged as terminator, whose payload is the single encoded frame covering
exactly `iAudioFrames * iFrameSize` samples (`iAudioFrames` times 10 ms). -/
theorem opus_terminator_pads (iAudioFrames : Int) (iFrameSize : Nat)
    (enc : List Int → Int) (st : EncSt) (frame : List Int) (b : Int)
    (hb : st.iBufferedFrames = b) (hb0 : 0 ≤ b) (hlt : b + 1 ≤ iAudioFrames)
    (hbuf : st.opusBuffer.length = b.toNat * iFrameSize)
    (hframe : frame.length = iFrameSize)
    (hpos : 0 < enc (st.opusBuffer ++ frame
      ++ List.replicate ((iAudioFrames - (b + 1)).toNat * iFrameSize) 0)) :
    (opusStep iAudioFrames iFrameSize enc st frame false).2
        = [(st.opusBuffer ++ frame
            ++ List.replicate ((iAudioFrames - (b + 1)).toNat * iFrameSize) 0, true)]
    ∧ (st.opusBuffer ++ frame
        ++ List.replicate ((iAudioFrames - (b + 1)).toNat * iFrameSize) 0).length
        = iAudioFrames.toNat * iFrameSize
    ∧ (opusStep iAudioFrames iFrameSize enc st frame false).1.iBufferedFrames = 0
    ∧ (opusStep iAudioFrames iFrameSize enc st frame false).1.opusBuffer = [] := by
  have hlen : (st.opusBuffer ++ frame
      ++ List.replicate ((iAudioFrames - (b + 1)).toNat * iFrameSize) 0).length
      = iAudioFrames.toNat * iFrameSize := by
    have hnat : b.toNat + 1 + (iAudioFrames - (b + 1)).toNat = iAudioFrames.toNat := by
      omega
    simp only [List.length_append, List.length_replicate, hbuf, hframe, ← hnat]
    ring
  rcases lt_or_eq_of_le hlt with hcase | hcase
  · have hflush : ¬ false = true ∨ iAudioFrames ≤ st.iBufferedFrames + 1 := by simp
    simp only [opusStep, Bool.not_false, if_pos]
    rw [hb]
    rw [if_pos (by omega : b + 1 < iAudioFrames), if_pos (by omega : b + 1 < iAudioFrames)]
    rw [if_neg (by omega : ¬ enc (st.opusBuffer ++ frame
      ++ List.replicate ((iAudioFrames - (b + 1)).toNat * iFrameSize) 0) ≤ 0)]
    refine ⟨rfl, hlen, rfl, rfl⟩
  · have hrep : (iAudioFrames - (b + 1)).toNat * iFrameSize = 0 := by
      rw [← hcase]; simp
    have hnil : List.replicate ((iAudioFrames - (b + 1)).toNat * iFrameSize) (0 : Int)
        = [] := by rw [hrep]; rfl
    rw [hnil] at hpos hlen ⊢
    simp only [List.append_nil] at hpos hlen ⊢
    simp only [opusStep, Bool.not_false]
    rw [hb]
    rw [if_neg (by omega : ¬ b + 1 < iAudioFrames), if_neg (by omega : ¬ b + 1 < iAudioFrames)]
    rw [if_neg (by omega : ¬ enc (st.opusBuffer ++ frame) ≤ 0)]
    refine ⟨rfl, hlen, rfl, rfl⟩

/-- C7, witness: one buffered frame `[7]` of size 1 and the terminator frame
`[8]` with `iAudioFrames = 4`: the emitted packet covers the two real frames
padded with two zero frames, 4 samples in all. -/
theorem opus_terminator_pads_witness :
    (opusStep 4 1 (fun xs => 5) ⟨0, 1, [7]⟩ [8] false).2 = [([7, 8, 0, 0], true)]
    ∧ ([7, 8, 0, 0] : List Int).length = 4 := by
  have h := opus_terminator_pads 4 1 (fun xs => 5) ⟨0, 1, [7]⟩ [8] 1
    rfl (by decide) (by decide) (by decide) (by decide) (by decide)
  refine ⟨?_, by decide⟩
  have := h.1
  simpa using this

/-! ## Frame counter and packet frame numbers (AudioInput.cpp lines 960,
1091-1097, 1130-1160, 1235-1267)

The control slice of `encodeAudioFrame`/`flushCheck` that determines
`audioData.frameNumber`, fed with the per-frame speech decision (the CELT
path with a succeeding encoder; the input flag is the arbiter's final
`bIsSpeech`). -/

/-- The counter state: `iFrameCounter`, `iSilentFrames`, `iBufferedFrames`
and `bPreviousVoice`. -/
structure CtrSt where
  iFrameCounter : Int
  iSilentFrames : Int
  iBufferedFrames : Int
  bPreviousVoice : Bool
deriving DecidableEq, Repr

/-- One processed frame: `iFrameCounter++` on entry (line 960); on a silent
frame `iSilentFrames++` and, past 500 consecutive silent frames,
`iFrameCounter = 0` (lines 1091-1097), while a speech frame resets
`iSilentFrames` (line 1092); a silent frame with no previous voice returns
before encoding (line 1130); otherwise the frame is buffered and, when the
terminator is set or `iBufferedFrames` reached `iAudioFrames`, `flushCheck`
emits a packet whose `frameNumber` is `iFrameCounter` minus the frames in
the packet and zeroes `iBufferedFrames` (lines 1238, 1264-1267).  The
emitted packet is `(frameNumber, frames in packet)`. -/
def ctrStep (iAudioFrames : Int) (st : CtrSt) (sp : Bool) : CtrSt × Option (Int × Int) :=
  let fc0 := st.iFrameCounter + 1
  let sil := if sp then 0 else st.iSilentFrames + 1
  let fc := if sp then fc0 else (if 500 < sil then 0 else fc0)
  if ¬ sp ∧ ¬ st.bPreviousVoice then
    (⟨fc, sil, st.iBufferedFrames, st.bPreviousVoice⟩, none)
  else
    let bf := st.iBufferedFrames + 1
    if ¬ sp ∨ iAudioFrames ≤ bf then
      (⟨fc, sil, 0, sp⟩, some (fc - bf, bf))
    else
      (⟨fc, sil, bf, sp⟩, none)

/-- Process a trace of speech decisions from a given counter state,
collecting the emitted packets in order. -/
def ctrRunFrom (iAudioFrames : Int) (st : CtrSt) : List Bool → CtrSt × List (Int × Int)
  | [] => (st, [])
  | e :: t =>
      let sp := ctrStep iAudioFrames st e
      let rest := ctrRunFrom iAudioFrames sp.1 t
      (rest.1, sp.2.toList ++ rest.2)

/-- All frames of a trace from startup (`iFrameCounter = 0`, no previous
voice), collecting emitted packets. -/
def ctrRun (iAudioFrames : Int) (evs : List Bool) : CtrSt × List (Int × Int) :=
  ctrRunFrom iAudioFrames ⟨0, 0, 0, false⟩ evs

/-- `true` iff no run of consecutive silent (`false`) frames in the trace,
continuing a current run of `cur`, ever exceeds 500 frames. -/
def silentRunsOK : List Bool → Int → Bool
  | [], _ => true
  | sp :: t, cur =>
      if sp then silentRunsOK t 0
      else decide (cur + 1 ≤ 500) && silentRunsOK t (cur + 1)

theorem ctrStep_sil (iA : Int) (st : CtrSt) (sp : Bool) :
    (ctrStep iA st sp).1.iSilentFrames
      = if sp then 0 else st.iSilentFrames + 1 := by
  simp only [ctrStep]
  split_ifs <;> simp_all

theorem ctrStep_fc (iA : Int) (st : CtrSt) (sp : Bool)
    (h : sp = false → st.iSilentFrames + 1 ≤ 500) :
    (ctrStep iA st sp).1.iFrameCounter = st.iFrameCounter + 1 := by
  simp only [ctrStep]
  split_ifs <;> simp_all <;> omega

theorem ctrRunFrom_counter (iA : Int) :
    ∀ (evs : List Bool) (st : CtrSt),
      silentRunsOK evs st.iSilentFrames = true →
      (ctrRunFrom iA st evs).1.iFrameCounter = st.iFrameCounter + evs.length := by
  intro evs
  induction evs with
  | nil => intro st h; simp [ctrRunFrom]
  | cons e t ih =>
      intro st hok
      rcases e
      · simp only [silentRunsOK, Bool.false_eq_true, if_false, Bool.and_eq_true,
          decide_eq_true_eq] at hok
        have hsil : (ctrStep iA st false).1.iSilentFrames = st.iSilentFrames + 1 := by
          rw [ctrStep_sil]; simp
        have hrec := ih (ctrStep iA st false).1 (by rw [hsil]; exact hok.2)
        simp only [ctrRunFrom]
        rw [hrec, ctrStep_fc iA st false (fun _ => hok.1)]
        simp only [List.length_cons]
        push_cast
        ring
      · simp only [silentRunsOK, if_true] at hok
        have hsil : (ctrStep iA st true).1.iSilentFrames = 0 := by
          rw [ctrStep_sil]; simp
        have hrec := ih (ctrStep iA st true).1 (by rw [hsil]; exact hok)
        simp only [ctrRunFrom]
        rw [hrec, ctrStep_fc iA st true (by simp)]
        simp only [List.length_cons]
        push_cast
        ring

set_option maxRecDepth 40000 in
/-- C8, counterexample: the claim says `frame_number` is a monotonic counter
of 10-ms frames since startup, minus the frames in the packet, never
decreasing or resetting.  With one frame per packet, the trace speech,
silence, 501 more silent frames, speech makes the code emit packets with
frame numbers 0, 1, 0: the long silence resets `iFrameCounter` (line 1096),
so the third packet's frame number is 0, less than the second packet's 1,
although 504 frames were processed since startup (the claim would give
504 - 1 = 503 for the third packet). -/
theorem frame_counter_resets :
    (ctrRun 1 (true :: false :: (List.replicate 501 false ++ [true]))).2
        = [(0, 1), (1, 1), (0, 1)]
    ∧ ((0 : Int) < 1 ∧ (503 : Int) ≠ 0) := by
  refine ⟨by decide, by norm_num⟩

/-- C8, amended: every emitted packet's `frame_number` is the frame counter
at its flush minus the number of frames in the packet; the counter goes up
by one on every processed frame but it is not monotone from startup: it is
reset to 0 once more than 500 consecutive silent frames accumulate (line
1096).  In the absence of such long silences it does equal the number of
10-ms frames processed since startup. -/
theorem frame_number_counter (iA : Int) :
    (∀ evs : List Bool, silentRunsOK evs 0 = true →
        ((ctrRun iA evs).1.iFrameCounter : Int) = evs.length)
    ∧ (∀ (st : CtrSt) (sp : Bool) (p : Int × Int),
        (ctrStep iA st sp).2 = some p →
          p.1 = (ctrStep iA st sp).1.iFrameCounter - p.2
            ∧ p.2 = st.iBufferedFrames + 1) := by
  constructor
  · intro evs h
    have := ctrRunFrom_counter iA evs ⟨0, 0, 0, false⟩ h
    simpa [ctrRun] using this
  · intro st sp p hp
    obtain ⟨p1, p2⟩ := p
    simp only [ctrStep] at hp ⊢
    split_ifs at hp ⊢ <;> simp_all [Prod.mk.injEq] <;> omega

/-! ## Masked mixers (AudioInput.cpp lines 363-409)

Sample arithmetic is embedded over exact rationals; the divisor logic is the
integer channel count the source computes, so the claims about which
channels are counted carry over verbatim. -/

/-- The channel-index table built by the first loop of `inMixerFloatMask` and
`inMixerShortMask` (lines 367-375 and 391-399): the indices `j < N` whose
mask bit is set, in order; `chancount` is its length. -/
def maskChanIndex (N : Nat) (mask : Nat) : List Nat :=
  (List.range N).filter (fun j => mask.testBit j)

/-- `inMixerFloatMask` (lines 363-385): for each of `nsamp` output samples,
sum the selected channels of the interleaved input and multiply by
`m = 1 / chancount` (a float division by zero when no channel of the first
`N` is selected; over `ℚ` the embedding makes `1 / 0 = 0`).  Out-of-range
reads return 0 (the source would read past the buffer). -/
def inMixerFloatMask (input : List ℚ) (nsamp N : Nat) (mask : Nat) : List ℚ :=
  let chanindex := maskChanIndex N mask
  let m : ℚ := 1 / (chanindex.length : ℚ)
  (List.range nsamp).map (fun i =>
    ((chanindex.map (fun j => input.getD (i * N + j) 0)).sum) * m)

/-- `inMixerShortMask` (lines 387-409): identical structure over 16-bit
samples; note the source computes `m = 1.0f / chancount` here, without the
`1/32768` scale the unmasked short mixers apply. -/
def inMixerShortMask (input : List Int) (nsamp N : Nat) (mask : Nat) : List ℚ :=
  let chanindex := maskChanIndex N mask
  let m : ℚ := 1 / (chanindex.length : ℚ)
  (List.range nsamp).map (fun i =>
    ((chanindex.map (fun j => ((input.getD (i * N + j) 0 : Int) : ℚ))).sum) * m)

/-- C10: in both masked mixers the divisor is the number of mask bits set
among the first `N` channel positions only — each output sample is the sum
over the selected channels divided by that restricted count, which is
unchanged when the mask is reduced modulo `2^N` and differs from the
population count of the whole mask (witness mask `0b101` with `N = 2`:
restricted count 1, full count 2) — and whenever the mask selects none of
the first `N` channels the count is 0, so the source's per-sample
`1.0f / chancount` is a division by zero and the produced samples are not
the advertised average in `[-1, 1)`. -/
theorem masked_mixer_divisor :
    (∀ (input : List ℚ) (nsamp N mask : Nat),
        inMixerFloatMask input nsamp N mask
          = (List.range nsamp).map (fun i =>
              ((maskChanIndex N mask).map (fun j => input.getD (i * N + j) 0)).sum
                / (((List.range N).countP (fun j => mask.testBit j) : Nat) : ℚ)))
    ∧ (∀ (input : List Int) (nsamp N mask : Nat),
        inMixerShortMask input nsamp N mask
          = (List.range nsamp).map (fun i =>
              ((maskChanIndex N mask).map
                  (fun j => ((input.getD (i * N + j) 0 : Int) : ℚ))).sum
                / (((List.range N).countP (fun j => mask.testBit j) : Nat) : ℚ)))
    ∧ (∀ N mask : Nat, maskChanIndex N mask = maskChanIndex N (mask % 2 ^ N))
    ∧ ((maskChanIndex 2 5).length = 1
        ∧ (List.range 64).countP (fun j => (5 : Nat).testBit j) = 2)
    ∧ (∀ N mask : Nat, (∀ j, j < N → mask.testBit j = false) →
        (maskChanIndex N mask).length = 0) := by
  refine ⟨?_, ?_, ?_, ⟨by decide, by decide⟩, ?_⟩
  · intro input nsamp N mask
    simp only [inMixerFloatMask, maskChanIndex, List.countP_eq_length_filter,
      mul_one_div]
  · intro input nsamp N mask
    simp only [inMixerShortMask, maskChanIndex, List.countP_eq_length_filter,
      mul_one_div]
  · intro N mask
    refine List.filter_congr fun j hj => ?_
    have hjN : j < N := List.mem_range.mp hj
    rw [Nat.testBit_mod_two_pow]
    simp [hjN]
  · intro N mask h
    rw [List.length_eq_zero]
    refine List.filter_eq_nil_iff.mpr fun j hj => ?_
    simp [h j (List.mem_range.mp hj)]

/-- C10, witness: the divisor theorem's zero-selection clause at the
concrete mask `0b100` with `N = 2` (the mask selects only channel 2, beyond
the first `N`): the computed `chancount` is 0. -/
theorem masked_mixer_divisor_witness :
    (maskChanIndex 2 4).length = 0 := by
  exact masked_mixer_divisor.2.2.2.2 2 4 (by decide)
